import Mathlib

/-!
Verification of the page-tree replication engine of the confluence-cli
repository (src/lib/confluence-client.js and the copy-tree command of
src/bin/confluence.js), shallowly embedded in Lean 4.

Conventions of the embedding:
* The remote Confluence instance (the "content repository") is an explicit
  environment value `Env`: `childrenOf` is what `getChildPages` returns for a
  parent id, the `…Ok` flags say whether the corresponding repository call
  succeeds, the `…Err` functions give the error carried by a failing call,
  `titleOf` is the title a content fetch (`getPageForEdit` / `getPageInfo`)
  reports for an id, and `newId` is the fresh id the server assigns to the
  copy created for a given source page.  Space keys and page bodies flow
  through `createChildPage` verbatim and are never consulted by the logic
  under verification, so they are not modelled.
* The `result` accumulator of `copyPageTree` is mutated by appends only and is
  never read during traversal, so every traversal function here returns the
  delta it contributes (`St`), and deltas are concatenated in program order
  with `St.app`.  Repository calls are additionally recorded as an event list
  (`Ev`) in the order the calls are issued, with `Ev.sleep` marking the
  `delayMs` pause.
* `onProgress` / `quiet` only emit log lines behind `!quiet && onProgress`
  guards and never affect control flow; they are not modelled.
-/

namespace ConfluenceCli

/-- Error information extracted in the catch block of `copyChildrenRecursive`:
`error.message` and `error.response?.status || null`. -/
structure ErrInfo where
  message : String
  status : Option Nat
deriving DecidableEq, Repr

/-- Result of `Except`-like repository operations, with decidable equality. -/
inductive Res (α : Type) where
  | ok (val : α)
  | err (e : ErrInfo)
deriving DecidableEq, Repr

/-- A child entry as returned by `getChildPages` (id and title are the fields
the copy logic consults). -/
structure SrcPage where
  id : String
  title : String
deriving DecidableEq, Repr

/-- A page record as produced by `getAllDescendantPages` and consumed by
`buildPageTree`: id, title and the attached `parentId` (absent on records
that never got one; JS falsy also covers the empty string). -/
structure Page where
  id : String
  title : String
  parentId : Option String
deriving DecidableEq, Repr

/-- JS truthiness of an optional string: `undefined`/`null` and `""` are
falsy, every other string is truthy. -/
def truthy : Option String → Bool
  | none => false
  | some s => !(s == "")

/- ------------------------------------------------------------------ -/
/- Pattern matcher: `globToRegExp` and `shouldExcludePage`.            -/
/- ------------------------------------------------------------------ -/

/-- One token of the regular expression built by `globToRegExp`.  The escaping
pass `pattern.replace(/[.+^${}()|[\]\\]/g, ...)` escapes every regex
metacharacter except `*` and `?`, so after the two substitutions
(`*` to `.*`, `?` to `.`) the anchored pattern is exactly a sequence of
literal characters, single-character wildcards and star wildcards. -/
inductive GTok where
  | lit (c : Char)
  | anyOne
  | star
deriving DecidableEq, Repr

/-- Tokenization performed by `globToRegExp`: `*` and `?` become wildcards,
every other character is escaped and hence matches literally. -/
def globTokens (pattern : String) : List GTok :=
  pattern.data.map fun c =>
    if c = '*' then GTok.star else if c = '?' then GTok.anyOne else GTok.lit c

/-- Characters the JS regex dot does not match (the `s` flag is not set):
line feed, carriage return, line separator, paragraph separator. -/
def isLineTerm (c : Char) : Bool :=
  c == '\n' || c == '\r' || c == Char.ofNat 8232 || c == Char.ofNat 8233

/-- Case-insensitive character comparison; the regexes are compiled with the
`i` flag, modelled here as ASCII case folding (the titles and patterns the
program deals with are compared letter by letter). -/
def ciEq (a b : Char) : Bool := a.toLower == b.toLower

/-- Backtracking for a star wildcard: some prefix of non-line-terminator
characters is consumed and the continuation matches the rest. -/
def starLoop (k : List Char → Bool) : List Char → Bool
  | [] => k []
  | d :: cs => k (d :: cs) || (!isLineTerm d && starLoop k cs)

/-- Matching of the compiled, fully anchored regex against a title, i.e. the
semantics of `globToRegExp(pattern).test(title)` on the fragment of regexes
that `globToRegExp` produces. -/
def gMatch : List GTok → List Char → Bool
  | [], cs => cs.isEmpty
  | GTok.lit _ :: _, [] => false
  | GTok.lit c :: ts, d :: cs => ciEq c d && gMatch ts cs
  | GTok.anyOne :: _, [] => false
  | GTok.anyOne :: ts, d :: cs => !isLineTerm d && gMatch ts cs
  | GTok.star :: ts, cs => starLoop (gMatch ts) cs

/-- Behaviour of `globToRegExp(pattern).test(title)`. -/
def globMatch (pattern title : String) : Bool :=
  gMatch (globTokens pattern) title.data

/-- Behaviour of `shouldExcludePage(title, excludePatterns)` on a list of
pattern strings: an empty or absent list excludes nothing, otherwise the
title is excluded iff some pattern matches it. -/
def shouldExcludePage (title : String) (excludePatterns : List String) : Bool :=
  if excludePatterns.isEmpty then false
  else excludePatterns.any fun p => globMatch p title

/-- Pattern list actually consulted during a copy: `copyPageTree` precompiles
`excludePatterns.filter(Boolean)`, and `copyChildrenRecursive` uses the
compiled list when it is non-empty and falls back to the raw list otherwise. -/
def effectivePatterns (excludePatterns : List String) : List String :=
  let ne := excludePatterns.filter fun p => !(p == "")
  if ne.isEmpty then excludePatterns else ne

/-- Declarative semantics of the compiled pattern (the code side): literals
match case-insensitively, `?` matches exactly one non-line-terminator
character, `*` matches zero or more non-line-terminator characters, and the
whole title must be consumed. -/
inductive GlobSem : List GTok → List Char → Prop
  | nil : GlobSem [] []
  | lit {c d : Char} {ts : List GTok} {cs : List Char} :
      ciEq c d = true → GlobSem ts cs → GlobSem (GTok.lit c :: ts) (d :: cs)
  | one {d : Char} {ts : List GTok} {cs : List Char} :
      isLineTerm d = false → GlobSem ts cs → GlobSem (GTok.anyOne :: ts) (d :: cs)
  | starNil {ts : List GTok} {cs : List Char} :
      GlobSem ts cs → GlobSem (GTok.star :: ts) cs
  | starCons {d : Char} {ts : List GTok} {cs : List Char} :
      isLineTerm d = false → GlobSem (GTok.star :: ts) cs →
      GlobSem (GTok.star :: ts) (d :: cs)

/-- Semantics the specification sentence describes, word for word: `*`
matches zero or more characters and `?` exactly one character, with no
restriction on which characters. -/
inductive GlobSpec : List GTok → List Char → Prop
  | nil : GlobSpec [] []
  | lit {c d : Char} {ts : List GTok} {cs : List Char} :
      ciEq c d = true → GlobSpec ts cs → GlobSpec (GTok.lit c :: ts) (d :: cs)
  | one {d : Char} {ts : List GTok} {cs : List Char} :
      GlobSpec ts cs → GlobSpec (GTok.anyOne :: ts) (d :: cs)
  | starNil {ts : List GTok} {cs : List Char} :
      GlobSpec ts cs → GlobSpec (GTok.star :: ts) cs
  | starCons {d : Char} {ts : List GTok} {cs : List Char} :
      GlobSpec (GTok.star :: ts) cs → GlobSpec (GTok.star :: ts) (d :: cs)

/- ------------------------------------------------------------------ -/
/- The content repository environment and the run records.             -/
/- ------------------------------------------------------------------ -/

/-- The remote repository as seen by one run.  The success flags and error
values are keyed by the page id an operation is about: `listOk s` governs
`getChildPages(s)`, `fetchOk s` governs the content reads for `s`
(`getPageForEdit` / `getPageInfo`), `createOk s` governs the
`createChildPage` call that copies source page `s`, and `newId s` is the id
the server assigns to that copy. -/
structure Env where
  childrenOf : String → List SrcPage
  titleOf : String → String
  listOk : String → Bool
  fetchOk : String → Bool
  createOk : String → Bool
  newId : String → String
  listErr : String → ErrInfo
  fetchErr : String → ErrInfo
  createErr : String → ErrInfo

/-- Options of `copyPageTree` that affect control flow, with the defaults of
the destructuring in the source. -/
structure CopyOpts where
  maxDepth : Nat := 10
  excludePatterns : List String := []
  delayMs : Nat := 100
  copySuffix : String := " (Copy)"
deriving DecidableEq, Repr

/-- A successfully created copy, as appended to `result.copiedPages`:
the server response (new id and title) annotated with the arguments of the
`createChildPage` call that produced it — `srcId` is the source page the
content was fetched from and `parentId` the parent id argument. -/
structure Copied where
  newId : String
  title : String
  srcId : String
  parentId : String
deriving DecidableEq, Repr

/-- An entry of `result.failures`: `{id, title, error, status}` with the id
and title taken from the child listing and the error data from the caught
exception. -/
structure Failure where
  id : String
  title : String
  error : String
  status : Option Nat
deriving DecidableEq, Repr

/-- Repository calls and pauses issued by a run, in program order.
`list` is a `getChildPages` call, `fetch` a `getPageForEdit` content read,
`create` a `createChildPage` call (recorded whether or not it succeeds, with
the title and parent id arguments), `sleep` the `delayMs` pause. -/
inductive Ev where
  | list (parentId : String)
  | fetch (srcId : String)
  | create (srcId : String) (title : String) (parentId : String)
  | sleep
deriving DecidableEq, Repr

/-- Whether an event mentions the given source page id. -/
def Ev.touches : Ev → String → Bool
  | Ev.list p, s => p == s
  | Ev.fetch i, s => i == s
  | Ev.create i _ p, s => i == s || p == s
  | Ev.sleep, _ => false

/-- Whether an event is a `createChildPage` call (a repository write). -/
def Ev.isCreate : Ev → Bool
  | Ev.create _ _ _ => true
  | _ => false

/-- Delta contributed to the `result` accumulator (plus the emitted events)
by a stretch of the traversal.  The accumulator is append-only and never
read, so the run is the in-order concatenation of these deltas. -/
structure St where
  copiedPages : List Copied
  failures : List Failure
  evs : List Ev
deriving DecidableEq, Repr

/-- Empty delta. -/
def St.empty : St := ⟨[], [], []⟩

/-- Concatenation of deltas in program order. -/
def St.app (a b : St) : St :=
  ⟨a.copiedPages ++ b.copiedPages, a.failures ++ b.failures, a.evs ++ b.evs⟩

/- ------------------------------------------------------------------ -/
/- The live copy: `copyChildrenRecursive` and `copyPageTree`.          -/
/- ------------------------------------------------------------------ -/

/-- Body of the `for` loop of `copyChildrenRecursive` over the listed
children.  `recFn src tgt` is the recursive call into a child's subtree at
the next depth; its second component is the error it throws (only its own
`getChildPages` can throw out of it — everything deeper is caught inside).
For each child: an excluded child is skipped before any call; otherwise the
content fetch and the create call are attempted, a success is appended to
`copiedPages` followed by the sibling pause (only when `delayMs > 0` and the
child is not the last of the listing) and the recursion into the child, and
any failure — including one thrown by the recursion's own child listing — is
appended to `failures` before the loop continues with the next sibling. -/
def copyLoop (env : Env) (opts : CopyOpts)
    (recFn : String → String → St × Option ErrInfo) (tgt : String) :
    List SrcPage → St
  | [] => St.empty
  | c :: rest =>
    if shouldExcludePage c.title (effectivePatterns opts.excludePatterns) then
      copyLoop env opts recFn tgt rest
    else if !env.fetchOk c.id then
      St.app ⟨[], [⟨c.id, c.title, (env.fetchErr c.id).message,
                    (env.fetchErr c.id).status⟩], [Ev.fetch c.id]⟩
        (copyLoop env opts recFn tgt rest)
    else
      let fullTitle := env.titleOf c.id
      if !env.createOk c.id then
        St.app ⟨[], [⟨c.id, c.title, (env.createErr c.id).message,
                      (env.createErr c.id).status⟩],
                [Ev.fetch c.id, Ev.create c.id fullTitle tgt]⟩
          (copyLoop env opts recFn tgt rest)
      else
        let nid := env.newId c.id
        let created : St :=
          ⟨[⟨nid, fullTitle, c.id, tgt⟩], [],
           [Ev.fetch c.id, Ev.create c.id fullTitle tgt]⟩
        let paused : St :=
          if 0 < opts.delayMs ∧ rest ≠ [] then ⟨[], [], [Ev.sleep]⟩ else St.empty
        let stepped := recFn c.id nid
        let caught : St :=
          match stepped.2 with
          | some e => ⟨[], [⟨c.id, c.title, e.message, e.status⟩], []⟩
          | none => St.empty
        St.app created (St.app paused (St.app stepped.1
          (St.app caught (copyLoop env opts recFn tgt rest))))

/-- One activation of `copyChildrenRecursive`, indexed by the remaining
depth budget `gas = maxDepth - currentDepth`; the guard
`currentDepth >= maxDepth` is exactly `gas = 0`.  The function returns its
delta together with the error it throws, which can only come from its own
`getChildPages(sourceParentId)` call. -/
def copyChildrenRecursive (env : Env) (opts : CopyOpts) :
    Nat → String → String → St × Option ErrInfo
  | 0, _, _ => (St.empty, none)
  | gas + 1, src, tgt =>
    if env.listOk src then
      (St.app ⟨[], [], [Ev.list src]⟩
        (copyLoop env opts (copyChildrenRecursive env opts gas) tgt
          (env.childrenOf src)), none)
    else
      (⟨[], [], [Ev.list src]⟩, some (env.listErr src))

/-- The `result` object returned by a completed `copyPageTree` call. -/
structure CopyResult where
  rootPage : Copied
  copiedPages : List Copied
  failures : List Failure
  totalCopied : Nat
deriving DecidableEq, Repr

/-- Behaviour of `copyPageTree(sourcePageId, targetParentId, newTitle,
options)`, paired with the events of the run.  The two root content reads
(`getPageForEdit` and `getPageInfo`) are modelled as one fetch governed by
`fetchOk`; either failing is fatal before any write.  The effective root
title is `newTitle || sourceTitle + copySuffix` (JS truthiness: a missing or
empty `newTitle` falls back to the default).  Root creation failure and a
thrown listing of the root's children propagate out of the call, so only a
run that returns `Res.ok` yields a result. -/
def copyPageTree (env : Env) (src tgt : String) (newTitle : Option String)
    (opts : CopyOpts) : Res CopyResult × List Ev :=
  if !env.fetchOk src then (Res.err (env.fetchErr src), [Ev.fetch src])
  else
    let finalTitle :=
      if truthy newTitle then newTitle.getD "" else env.titleOf src ++ opts.copySuffix
    if !env.createOk src then
      (Res.err (env.createErr src), [Ev.fetch src, Ev.create src finalTitle tgt])
    else
      let root : Copied := ⟨env.newId src, finalTitle, src, tgt⟩
      let stepped := copyChildrenRecursive env opts opts.maxDepth src root.newId
      let evs := Ev.fetch src :: Ev.create src finalTitle tgt :: stepped.1.evs
      match stepped.2 with
      | some e => (Res.err e, evs)
      | none =>
        let copied := root :: stepped.1.copiedPages
        (Res.ok ⟨root, copied, stepped.1.failures, copied.length⟩, evs)

/- ------------------------------------------------------------------ -/
/- Tree discovery (`getAllDescendantPages`) and the dry-run path.      -/
/- ------------------------------------------------------------------ -/

/-- Loop of `getAllDescendantPages` over the listed children, collecting
each child's descendants; a thrown `getChildPages` anywhere propagates. -/
def descendantsLoop (recFn : String → Res (List Page)) :
    List SrcPage → Res (List Page)
  | [] => Res.ok []
  | c :: rest =>
    match recFn c.id with
    | Res.err e => Res.err e
    | Res.ok grand =>
      match descendantsLoop recFn rest with
      | Res.err e => Res.err e
      | Res.ok more => Res.ok (grand ++ more)

/-- Behaviour of `getAllDescendantPages(pageId, maxDepth, currentDepth)`,
indexed by `gas = maxDepth - currentDepth`: at gas 0 the list is empty
without any call; otherwise the direct children are listed, annotated with
`parentId`, and followed by the concatenation of their recursively collected
descendants. -/
def getAllDescendantPages (env : Env) : Nat → String → Res (List Page)
  | 0, _ => Res.ok []
  | gas + 1, src =>
    if env.listOk src then
      match descendantsLoop (getAllDescendantPages env gas) (env.childrenOf src) with
      | Res.err e => Res.err e
      | Res.ok deeper =>
        Res.ok (((env.childrenOf src).map fun c => Page.mk c.id c.title (some src))
          ++ deeper)
    else Res.err (env.listErr src)

/-- Value of `getAllDescendantPages` on an environment in which every
`getChildPages` call succeeds (the `Res.ok` payload), spelt as a total
function so counts can be compared with the live traversal. -/
def descListT (env : Env) : Nat → String → List Page
  | 0, _ => []
  | gas + 1, src =>
    ((env.childrenOf src).map fun c => Page.mk c.id c.title (some src))
      ++ (env.childrenOf src).flatMap fun c => descListT env gas c.id

/- ------------------------------------------------------------------ -/
/- Tree builder (`buildPageTree`).                                     -/
/- ------------------------------------------------------------------ -/

/-- Parent a page gets linked under by `buildPageTree`: its `parentId`, when
that is truthy and a key of the page map (some page of the list carries that
id); every other page is pushed onto the top-level list, whatever the root
id is (both remaining branches push to the top level). -/
def nestedUnder (pages : List Page) (p : Page) : Option String :=
  match p.parentId with
  | some q => if q ≠ "" ∧ q ∈ pages.map Page.id then some q else none
  | none => none

/-- Node stored in the page map for an id: the map is built by successive
`set` calls, so the last page of the list with that id wins. -/
def nodeFor (pages : List Page) (i : String) : Option Page :=
  (pages.filter fun p => p.id == i).getLast?

/-- Top-level nodes of the tree returned by `buildPageTree(pages, rootId)`,
rendered as page records (children links are given by `buildChildren`): one
push, of the mapped node for the page's id, per non-nested page, in list
order. -/
def buildTopLevel (pages : List Page) (rootId : String) : List Page :=
  let _ := rootId
  (pages.filter fun p => (nestedUnder pages p).isNone).filterMap
    fun p => nodeFor pages p.id

/-- Children list of the node with id `x` in the tree returned by
`buildPageTree`: one push per page nested under `x`, in list order. -/
def buildChildren (pages : List Page) (x : String) : List Page :=
  (pages.filter fun p => nestedUnder pages p == some x).filterMap
    fun p => nodeFor pages p.id

/- ------------------------------------------------------------------ -/
/- The copy-tree command's dry-run branch (src/bin/confluence.js).     -/
/- ------------------------------------------------------------------ -/

/-- Behaviour of the `--dry-run` branch of the copy-tree command: fetch the
root's info, collect the depth-bounded descendants, drop the ones whose own
title matches an exclusion pattern, and report the planned root title and
the filtered count.  No `createChildPage` call occurs on this path — the
environment's `createOk` and `createErr` are never consulted. -/
def dryRunCopyTree (env : Env) (src : String) (newTitle : Option String)
    (maxDepth : Nat) (excludePatterns : List String) (copySuffix : String) :
    Res (String × Nat) :=
  if !env.fetchOk src then Res.err (env.fetchErr src)
  else
    let rootTitle :=
      if truthy newTitle then newTitle.getD "" else env.titleOf src ++ copySuffix
    match getAllDescendantPages env maxDepth src with
    | Res.err e => Res.err e
    | Res.ok descendants =>
      Res.ok (rootTitle,
        (descendants.filter fun p => !shouldExcludePage p.title excludePatterns).length)

/- ------------------------------------------------------------------ -/
/- Concrete environments used to check the runs of the specification's  -/
/- own examples.                                                        -/
/- ------------------------------------------------------------------ -/

/-- Source tree `A -> [B, C]`, `B -> [D]` (titles `a`, `b`, `c`, `d`), every
repository call succeeding; the copy of source page `s` gets id `n` ++ `s`. -/
def envTree : Env where
  childrenOf := fun s =>
    if s = "A" then [⟨"B", "b"⟩, ⟨"C", "c"⟩]
    else if s = "B" then [⟨"D", "d"⟩] else []
  titleOf := fun s =>
    if s = "A" then "a" else if s = "B" then "b"
    else if s = "C" then "c" else if s = "D" then "d" else ""
  listOk := fun _ => true
  fetchOk := fun _ => true
  createOk := fun _ => true
  newId := fun s => "n" ++ s
  listErr := fun _ => ⟨"list boom", some 502⟩
  fetchErr := fun _ => ⟨"fetch boom", some 404⟩
  createErr := fun _ => ⟨"create boom", some 409⟩

/-- The same tree with the `createChildPage` call for source page `B`
failing. -/
def envCreateFailB : Env := { envTree with createOk := fun s => !(s == "B") }

/-- The same tree with the `getChildPages("B")` call failing. -/
def envListFailB : Env := { envTree with listOk := fun s => !(s == "B") }

/-- Chain `A -> B -> C`, every call succeeding. -/
def envChain : Env := { envTree with childrenOf := fun s =>
  if s = "A" then [⟨"B", "b"⟩] else if s = "B" then [⟨"C", "c"⟩] else [] }

/-- A childless source page titled `Docs`. -/
def envDocs : Env := { envTree with
  childrenOf := (fun _ => []),
  titleOf := (fun s => if s = "A" then "Docs" else "") }

/-- Tree `A -> [B]`, `B -> [D]` where only `B` is titled so that the pattern
`secret*` matches it; `D` is not. -/
def envSecret : Env := { envTree with
  childrenOf := (fun s =>
    if s = "A" then [⟨"B", "secret plans"⟩]
    else if s = "B" then [⟨"D", "d"⟩] else []),
  titleOf := (fun s =>
    if s = "A" then "a" else if s = "B" then "secret plans"
    else if s = "D" then "d" else "") }

/- ------------------------------------------------------------------ -/
/- Basic lemmas about deltas.                                          -/
/- ------------------------------------------------------------------ -/

@[simp] theorem St.app_copied (a b : St) :
    (St.app a b).copiedPages = a.copiedPages ++ b.copiedPages := rfl

@[simp] theorem St.app_failures (a b : St) :
    (St.app a b).failures = a.failures ++ b.failures := rfl

@[simp] theorem St.app_evs (a b : St) :
    (St.app a b).evs = a.evs ++ b.evs := rfl

@[simp] theorem St.empty_copied : St.empty.copiedPages = [] := rfl

@[simp] theorem St.empty_failures : St.empty.failures = [] := rfl

@[simp] theorem St.empty_evs : St.empty.evs = [] := rfl

/- ------------------------------------------------------------------ -/
/- Pattern matcher lemmas.                                             -/
/- ------------------------------------------------------------------ -/

theorem GlobSem.nil_inv {cs : List Char} (h : GlobSem [] cs) : cs = [] := by
  cases h; rfl

theorem gMatch_iff_globSem (ts : List GTok) (cs : List Char) :
    gMatch ts cs = true ↔ GlobSem ts cs := by
  induction ts generalizing cs with
  | nil =>
    cases cs with
    | nil => simpa [gMatch] using GlobSem.nil
    | cons d cs =>
      simp only [gMatch, List.isEmpty_cons]
      constructor
      · intro h; exact absurd h (by simp)
      · intro h; exact absurd (GlobSem.nil_inv h) (by simp)
  | cons t ts ih =>
    cases t with
    | lit c =>
      cases cs with
      | nil =>
        simp only [gMatch]
        constructor
        · intro h; exact absurd h (by simp)
        · intro h; cases h
      | cons d cs =>
        simp only [gMatch, Bool.and_eq_true, ih]
        constructor
        · intro h; exact GlobSem.lit h.1 h.2
        · intro h; cases h with
          | lit h1 h2 => exact ⟨h1, h2⟩
    | anyOne =>
      cases cs with
      | nil =>
        simp only [gMatch]
        constructor
        · intro h; exact absurd h (by simp)
        · intro h; cases h
      | cons d cs =>
        simp only [gMatch, Bool.and_eq_true, ih, Bool.not_eq_true']
        constructor
        · intro h; exact GlobSem.one h.1 h.2
        · intro h; cases h with
          | one h1 h2 => exact ⟨h1, h2⟩
    | star =>
      have hstar : ∀ cs : List Char,
          starLoop (gMatch ts) cs = true ↔ GlobSem (GTok.star :: ts) cs := by
        intro cs
        induction cs with
        | nil =>
          simp only [starLoop, ih]
          constructor
          · intro h; exact GlobSem.starNil h
          · intro h; cases h with
            | starNil h1 => exact h1
        | cons d cs ihc =>
          simp only [starLoop, Bool.or_eq_true, Bool.and_eq_true, ih, ihc,
            Bool.not_eq_true']
          constructor
          · intro h
            cases h with
            | inl h1 => exact GlobSem.starNil h1
            | inr h1 => exact GlobSem.starCons h1.1 h1.2
          · intro h
            cases h with
            | starNil h1 => exact Or.inl h1
            | starCons h1 h2 => exact Or.inr ⟨h1, h2⟩
      have hdef : gMatch (GTok.star :: ts) cs = starLoop (gMatch ts) cs := rfl
      rw [hdef]; exact hstar cs

theorem shouldExcludePage_iff (title : String) (ps : List String) :
    shouldExcludePage title ps = true ↔
      ∃ p ∈ ps, GlobSem (globTokens p) title.data := by
  cases ps with
  | nil => simp [shouldExcludePage]
  | cons q qs =>
    have h1 : shouldExcludePage title (q :: qs)
        = (q :: qs).any fun p => globMatch p title := by
      simp [shouldExcludePage]
    rw [h1, List.any_eq_true]
    constructor
    · rintro ⟨p, hp, hm⟩
      exact ⟨p, hp, (gMatch_iff_globSem _ _).mp hm⟩
    · rintro ⟨p, hp, hm⟩
      exact ⟨p, hp, (gMatch_iff_globSem _ _).mpr hm⟩

/-- Claim C5 (amended): pattern compilation escapes every regex metacharacter
except `*` and `?`, maps `*` to zero or more non-line-terminator characters
and `?` to exactly one non-line-terminator character (the compiled JS regex
is built without the `s` flag, so its wildcards do not cross line
terminators), anchors the whole title and matches case-insensitively; a
title is excluded iff it matches at least one pattern, an empty pattern list
excludes nothing, and the three concrete examples of the claim hold, with
the dot and the brackets literal. -/
theorem shouldExcludePage_spec :
    (∀ title ps, shouldExcludePage title ps = true ↔
      ∃ p ∈ ps, GlobSem (globTokens p) title.data)
    ∧ (∀ title, shouldExcludePage title [] = false)
    ∧ shouldExcludePage "temp file.txt" ["temp*"] = true
    ∧ shouldExcludePage "Temp File.txt" ["temp*"] = true
    ∧ shouldExcludePage "file.name.v1" ["file.name*"] = true
    ∧ shouldExcludePage "fileXnameYv1" ["file.name*"] = false
    ∧ shouldExcludePage "[draft]1" ["[draft]?"] = true := by
  refine ⟨shouldExcludePage_iff, fun title => rfl, ?_, ?_, ?_, ?_, ?_⟩
  · decide
  · decide
  · decide
  · decide
  · decide

/-- Claim C5, counterexample to the claim as stated: read literally, `*`
matches "zero or more characters", so the pattern `a*` should match the
two-character title `"a\n"` (witnessed by `GlobSpec`, the word-for-word
reading of the claim); the compiled JS regex `^a.*$/i` does not, because its
dot never matches a line terminator, so the title is not excluded. -/
theorem shouldExcludePage_newline_counterexample :
    GlobSpec (globTokens "a*") ("a\n").data
    ∧ shouldExcludePage "a\n" ["a*"] = false := by
  constructor
  · have h1 : globTokens "a*" = [GTok.lit 'a', GTok.star] := by decide
    have h2 : ("a\n").data = ['a', '\n'] := rfl
    rw [h1, h2]
    exact GlobSpec.lit (by decide)
      (GlobSpec.starCons (GlobSpec.starNil GlobSpec.nil))
  · decide

/- ------------------------------------------------------------------ -/
/- Tree builder lemmas.                                                -/
/- ------------------------------------------------------------------ -/

theorem filterMap_id_of_forall {α : Type} {f : α → Option α} :
    ∀ {l : List α}, (∀ a ∈ l, f a = some a) → l.filterMap f = l := by
  intro l
  induction l with
  | nil => intro _; rfl
  | cons a l ih =>
    intro h
    rw [List.filterMap_cons, h a (by simp)]
    rw [ih fun b hb => h b (by simp [hb])]

theorem nodeFor_eq_self {pages : List Page}
    (h : (pages.map Page.id).Nodup) {p : Page} (hp : p ∈ pages) :
    nodeFor pages p.id = some p := by
  induction pages with
  | nil => cases hp
  | cons q rest ih =>
    rw [List.map_cons, List.nodup_cons] at h
    rcases List.mem_cons.mp hp with hq | hr
    · subst hq
      have hnone : rest.filter (fun r => r.id == p.id) = [] := by
        rw [List.filter_eq_nil_iff]
        intro r hrmem hbeq
        apply h.1
        have hid : r.id = p.id := by simpa using hbeq
        rw [← hid]
        exact List.mem_map_of_mem Page.id hrmem
      unfold nodeFor
      rw [List.filter_cons, if_pos (by simp), hnone, List.getLast?_singleton]
    · have hne : ¬(q.id == p.id) = true := by
        intro hbeq
        apply h.1
        have hid : q.id = p.id := by simpa using hbeq
        rw [hid]
        exact List.mem_map_of_mem Page.id hr
      unfold nodeFor
      rw [List.filter_cons, if_neg hne]
      have hrest := ih h.2 hr
      unfold nodeFor at hrest
      exact hrest

theorem nestedUnder_eq_some_iff {pages : List Page} {p : Page} {q : String} :
    nestedUnder pages p = some q
      ↔ p.parentId = some q ∧ q ≠ "" ∧ q ∈ pages.map Page.id := by
  unfold nestedUnder
  cases hpar : p.parentId with
  | none => simp
  | some r =>
    by_cases hcond : r ≠ "" ∧ r ∈ pages.map Page.id
    · simp only [if_pos hcond]
      constructor
      · intro hq; cases hq; exact ⟨rfl, hcond⟩
      · intro hq; cases hq.1; rfl
    · simp only [if_neg hcond]
      constructor
      · intro hq; cases hq
      · intro hq
        cases hq.1
        exact absurd hq.2 hcond

theorem filterMap_nodeFor_eq {pages l : List Page}
    (h : (pages.map Page.id).Nodup) (hl : ∀ p ∈ l, p ∈ pages) :
    l.filterMap (fun p => nodeFor pages p.id) = l :=
  filterMap_id_of_forall fun p hp => nodeFor_eq_self h (hl p hp)

theorem buildTopLevel_eq_filter {pages : List Page} (rootId : String)
    (h : (pages.map Page.id).Nodup) :
    buildTopLevel pages rootId
      = pages.filter fun p => (nestedUnder pages p).isNone := by
  unfold buildTopLevel
  exact filterMap_nodeFor_eq h fun p hp => (List.mem_filter.mp hp).1

theorem buildChildren_eq_filter {pages : List Page} (x : String)
    (h : (pages.map Page.id).Nodup) :
    buildChildren pages x
      = pages.filter fun p => nestedUnder pages p == some x := by
  unfold buildChildren
  exact filterMap_nodeFor_eq h fun p hp => (List.mem_filter.mp hp).1

/-- Claim C9 (amended): for every flat page list whose ids are pairwise
distinct, `buildPageTree` is pure and places every input page exactly once
in the returned forest — in the children list of its matched parent when its
`parentId` is truthy and carried by some page of the list, and on the
top-level list otherwise (in particular when the declared parent is absent
from the list), whatever the root id is; no page is dropped.  (With
duplicate ids the map entry of an earlier page is overwritten and that page
is dropped, see the counterexample.) -/
theorem buildPageTree_places_each_page_once
    (pages : List Page) (rootId : String)
    (h : (pages.map Page.id).Nodup) (p : Page) (hp : p ∈ pages) :
    (∀ x, p ∈ buildChildren pages x ↔ nestedUnder pages p = some x)
    ∧ (p ∈ buildTopLevel pages rootId ↔ nestedUnder pages p = none)
    ∧ (∀ q, nestedUnder pages p = some q →
        (buildChildren pages q).count p = 1
        ∧ p.parentId = some q ∧ q ∈ pages.map Page.id)
    ∧ (nestedUnder pages p = none →
        (buildTopLevel pages rootId).count p = 1
        ∧ ∀ q, p.parentId = some q → q = "" ∨ q ∉ pages.map Page.id) := by
  have hcount : pages.count p = 1 :=
    List.count_eq_one_of_mem (List.Nodup.of_map Page.id h) hp
  refine ⟨?_, ?_, ?_, ?_⟩
  · intro x
    rw [buildChildren_eq_filter x h, List.mem_filter]
    constructor
    · intro hx; simpa using hx.2
    · intro hx; exact ⟨hp, by simp [hx]⟩
  · rw [buildTopLevel_eq_filter rootId h, List.mem_filter]
    constructor
    · intro hx; simpa [Option.isNone_iff_eq_none] using hx.2
    · intro hx; exact ⟨hp, by simp [hx]⟩
  · intro q hq
    have hiff := nestedUnder_eq_some_iff.mp hq
    exact ⟨by rw [buildChildren_eq_filter q h,
        List.count_filter (by simp [hq]), hcount], hiff.1, hiff.2.2⟩
  · intro hq
    refine ⟨?_, ?_⟩
    · rw [buildTopLevel_eq_filter rootId h,
        List.count_filter (by simp [hq]), hcount]
    · intro q hpar
      by_contra hcon
      push_neg at hcon
      have hsome : nestedUnder pages p = some q :=
        nestedUnder_eq_some_iff.mpr ⟨hpar, hcon.1, hcon.2⟩
      rw [hq] at hsome
      cases hsome

/-- Claim C9, witness: on the two-page list `[root-child, nested-child]`
with distinct ids the theorem applies; its hypotheses hold by computation. -/
theorem buildPageTree_places_each_page_once_witness :
    (∀ x, Page.mk "2" "b" (some "1") ∈ buildChildren [Page.mk "1" "a" none, Page.mk "2" "b" (some "1")] x
      ↔ nestedUnder [Page.mk "1" "a" none, Page.mk "2" "b" (some "1")] (Page.mk "2" "b" (some "1")) = some x)
    ∧ (Page.mk "2" "b" (some "1") ∈ buildTopLevel [Page.mk "1" "a" none, Page.mk "2" "b" (some "1")] "0"
      ↔ nestedUnder [Page.mk "1" "a" none, Page.mk "2" "b" (some "1")] (Page.mk "2" "b" (some "1")) = none)
    ∧ (∀ q, nestedUnder [Page.mk "1" "a" none, Page.mk "2" "b" (some "1")] (Page.mk "2" "b" (some "1")) = some q →
        (buildChildren [Page.mk "1" "a" none, Page.mk "2" "b" (some "1")] q).count (Page.mk "2" "b" (some "1")) = 1
        ∧ (Page.mk "2" "b" (some "1")).parentId = some q
        ∧ q ∈ [Page.mk "1" "a" none, Page.mk "2" "b" (some "1")].map Page.id)
    ∧ (nestedUnder [Page.mk "1" "a" none, Page.mk "2" "b" (some "1")] (Page.mk "2" "b" (some "1")) = none →
        (buildTopLevel [Page.mk "1" "a" none, Page.mk "2" "b" (some "1")] "0").count (Page.mk "2" "b" (some "1")) = 1
        ∧ ∀ q, (Page.mk "2" "b" (some "1")).parentId = some q →
            q = "" ∨ q ∉ [Page.mk "1" "a" none, Page.mk "2" "b" (some "1")].map Page.id) :=
  buildPageTree_places_each_page_once
    [Page.mk "1" "a" none, Page.mk "2" "b" (some "1")] "0"
    (by decide) (Page.mk "2" "b" (some "1")) (by decide)

/-- Claim C9, counterexample to the claim as stated: over an arbitrary flat
page list a page can be silently dropped.  With two distinct input pages
that share the id `"1"`, the later page overwrites the map node of the
earlier one, so the earlier page (here titled `"a"`, with no declared
parent, which the claim says must appear exactly once as a top-level node)
appears nowhere in the returned forest, while the later node is pushed
twice. -/
theorem buildPageTree_duplicate_id_counterexample :
    Page.mk "1" "a" none ∈ [Page.mk "1" "a" none, Page.mk "1" "b" none]
    ∧ nestedUnder [Page.mk "1" "a" none, Page.mk "1" "b" none] (Page.mk "1" "a" none) = none
    ∧ buildTopLevel [Page.mk "1" "a" none, Page.mk "1" "b" none] "0"
        = [Page.mk "1" "b" none, Page.mk "1" "b" none]
    ∧ Page.mk "1" "a" none ∉ buildTopLevel [Page.mk "1" "a" none, Page.mk "1" "b" none] "0" := by
  refine ⟨by decide, by decide, by decide, by decide⟩

/- ------------------------------------------------------------------ -/
/- Engine lemmas: loop equations and run inversion.                    -/
/- ------------------------------------------------------------------ -/

theorem copyLoop_excluded (env : Env) (opts : CopyOpts)
    (recFn : String → String → St × Option ErrInfo) (tgt : String)
    (c : SrcPage) (rest : List SrcPage)
    (h : shouldExcludePage c.title (effectivePatterns opts.excludePatterns) = true) :
    copyLoop env opts recFn tgt (c :: rest) = copyLoop env opts recFn tgt rest := by
  simp [copyLoop, h]

theorem copyLoop_fetch_fails (env : Env) (opts : CopyOpts)
    (recFn : String → String → St × Option ErrInfo) (tgt : String)
    (c : SrcPage) (rest : List SrcPage)
    (hx : shouldExcludePage c.title (effectivePatterns opts.excludePatterns) = false)
    (hf : env.fetchOk c.id = false) :
    copyLoop env opts recFn tgt (c :: rest)
      = St.app ⟨[], [⟨c.id, c.title, (env.fetchErr c.id).message,
                      (env.fetchErr c.id).status⟩], [Ev.fetch c.id]⟩
          (copyLoop env opts recFn tgt rest) := by
  simp [copyLoop, hx, hf]

theorem copyLoop_create_fails (env : Env) (opts : CopyOpts)
    (recFn : String → String → St × Option ErrInfo) (tgt : String)
    (c : SrcPage) (rest : List SrcPage)
    (hx : shouldExcludePage c.title (effectivePatterns opts.excludePatterns) = false)
    (hf : env.fetchOk c.id = true) (hc : env.createOk c.id = false) :
    copyLoop env opts recFn tgt (c :: rest)
      = St.app ⟨[], [⟨c.id, c.title, (env.createErr c.id).message,
                      (env.createErr c.id).status⟩],
                [Ev.fetch c.id, Ev.create c.id (env.titleOf c.id) tgt]⟩
          (copyLoop env opts recFn tgt rest) := by
  simp [copyLoop, hx, hf, hc]

theorem copyLoop_success (env : Env) (opts : CopyOpts)
    (recFn : String → String → St × Option ErrInfo) (tgt : String)
    (c : SrcPage) (rest : List SrcPage)
    (hx : shouldExcludePage c.title (effectivePatterns opts.excludePatterns) = false)
    (hf : env.fetchOk c.id = true) (hc : env.createOk c.id = true) :
    copyLoop env opts recFn tgt (c :: rest)
      = St.app ⟨[⟨env.newId c.id, env.titleOf c.id, c.id, tgt⟩], [],
                [Ev.fetch c.id, Ev.create c.id (env.titleOf c.id) tgt]⟩
          (St.app (if 0 < opts.delayMs ∧ rest ≠ [] then ⟨[], [], [Ev.sleep]⟩ else St.empty)
            (St.app (recFn c.id (env.newId c.id)).1
              (St.app (match (recFn c.id (env.newId c.id)).2 with
                       | some e => ⟨[], [⟨c.id, c.title, e.message, e.status⟩], []⟩
                       | none => St.empty)
                (copyLoop env opts recFn tgt rest)))) := by
  simp [copyLoop, hx, hf, hc]

theorem copyPageTree_ok_inversion (env : Env) (src tgt : String)
    (nt : Option String) (opts : CopyOpts) (res : CopyResult) (evs : List Ev)
    (h : copyPageTree env src tgt nt opts = (Res.ok res, evs)) :
    env.fetchOk src = true ∧ env.createOk src = true
    ∧ (copyChildrenRecursive env opts opts.maxDepth src (env.newId src)).2 = none
    ∧ res.rootPage = ⟨env.newId src,
        (if truthy nt then nt.getD "" else env.titleOf src ++ opts.copySuffix), src, tgt⟩
    ∧ res.copiedPages = res.rootPage ::
        (copyChildrenRecursive env opts opts.maxDepth src (env.newId src)).1.copiedPages
    ∧ res.failures
        = (copyChildrenRecursive env opts opts.maxDepth src (env.newId src)).1.failures := by
  unfold copyPageTree at h
  by_cases hf : env.fetchOk src = true
  · rw [hf] at h
    simp only [Bool.not_true, Bool.false_eq_true, if_false] at h
    by_cases hc : env.createOk src = true
    · rw [hc] at h
      simp only [Bool.not_true, Bool.false_eq_true, if_false] at h
      split at h
      · exact absurd (congrArg Prod.fst h) (by simp)
      · rename_i hnone
        have h1 := congrArg Prod.fst h
        simp only at h1
        cases h1
        exact ⟨hf, hc, hnone, rfl, rfl, rfl⟩
    · rw [Bool.not_eq_true] at hc
      rw [hc] at h
      simp only [Bool.not_false, if_true] at h
      exact absurd (congrArg Prod.fst h) (by simp)
  · rw [Bool.not_eq_true] at hf
    rw [hf] at h
    simp only [Bool.not_false, if_true] at h
    exact absurd (congrArg Prod.fst h) (by simp)

theorem descendantsLoop_const_nil
    (recFn : String → Res (List Page)) (h : ∀ s, recFn s = Res.ok []) :
    ∀ cs, descendantsLoop recFn cs = Res.ok [] := by
  intro cs
  induction cs with
  | nil => rfl
  | cons c rest ih => simp [descendantsLoop, h, ih]

/- ------------------------------------------------------------------ -/
/- Claim C2.                                                           -/
/- ------------------------------------------------------------------ -/

/-- Claim C2: exclusion is subtree-absorbing.  A discovered child whose
title matches the run's exclusion patterns contributes nothing at all to the
traversal — processing it is identical to processing the remaining siblings,
so no repository call is issued for it and its subtree is never entered; on
the claim's example tree `A -> [B(excluded), C]`, `B -> [D]` the run copies
exactly `A` and `C`, records no failure, and issues no call mentioning `B`
or `D`. -/
theorem exclusion_subtree_absorbing :
    (∀ env opts recFn tgt (c : SrcPage) rest,
        shouldExcludePage c.title (effectivePatterns opts.excludePatterns) = true →
        copyLoop env opts recFn tgt (c :: rest) = copyLoop env opts recFn tgt rest)
    ∧ copyPageTree envTree "A" "T" none { excludePatterns := ["b*"] }
        = (Res.ok ⟨⟨"nA", "a (Copy)", "A", "T"⟩,
            [⟨"nA", "a (Copy)", "A", "T"⟩, ⟨"nC", "c", "C", "nA"⟩], [], 2⟩,
           [Ev.fetch "A", Ev.create "A" "a (Copy)" "T", Ev.list "A",
            Ev.fetch "C", Ev.create "C" "c" "nA", Ev.list "C"])
    ∧ ((copyPageTree envTree "A" "T" none { excludePatterns := ["b*"] }).2.all
        fun e => !(Ev.touches e "B") && !(Ev.touches e "D")) = true := by
  refine ⟨fun env opts recFn tgt c rest h => copyLoop_excluded env opts recFn tgt c rest h,
    by decide, by decide⟩

/-- Claim C2, witness: the skip equation applied to a concrete excluded
child. -/
theorem exclusion_subtree_absorbing_witness :
    copyLoop envTree { excludePatterns := ["b*"] }
        (copyChildrenRecursive envTree { excludePatterns := ["b*"] } 0) "nA"
        (SrcPage.mk "B" "b" :: [SrcPage.mk "C" "c"])
      = copyLoop envTree { excludePatterns := ["b*"] }
          (copyChildrenRecursive envTree { excludePatterns := ["b*"] } 0) "nA"
          [SrcPage.mk "C" "c"] :=
  exclusion_subtree_absorbing.1 envTree { excludePatterns := ["b*"] }
    (copyChildrenRecursive envTree { excludePatterns := ["b*"] } 0) "nA"
    (SrcPage.mk "B" "b") [SrcPage.mk "C" "c"] (by decide)

/- ------------------------------------------------------------------ -/
/- Claim C6.                                                           -/
/- ------------------------------------------------------------------ -/

/-- Claim C6: the depth bound counts levels below the root.  Discovery with
`maxDepth` 0 returns the empty list without any repository call, discovery
with `maxDepth` 1 returns exactly the direct children; the live recursion
returns without listing anything once the remaining depth is exhausted, and
on the chain `A -> B -> C` a copy with `maxDepth = 1` copies exactly
`A` and `B` and issues no call mentioning `C`. -/
theorem depth_bound :
    (∀ env src, getAllDescendantPages env 0 src = Res.ok [])
    ∧ (∀ env src, env.listOk src = true →
        getAllDescendantPages env 1 src
          = Res.ok ((env.childrenOf src).map fun c => Page.mk c.id c.title (some src)))
    ∧ (∀ env opts src tgt, copyChildrenRecursive env opts 0 src tgt = (St.empty, none))
    ∧ copyPageTree envChain "A" "T" none { maxDepth := 1 }
        = (Res.ok ⟨⟨"nA", "a (Copy)", "A", "T"⟩,
            [⟨"nA", "a (Copy)", "A", "T"⟩, ⟨"nB", "b", "B", "nA"⟩], [], 2⟩,
           [Ev.fetch "A", Ev.create "A" "a (Copy)" "T", Ev.list "A",
            Ev.fetch "B", Ev.create "B" "b" "nA"])
    ∧ ((copyPageTree envChain "A" "T" none { maxDepth := 1 }).2.all
        fun e => !(Ev.touches e "C")) = true := by
  refine ⟨fun env src => rfl, ?_, fun env opts src tgt => rfl, by decide, by decide⟩
  intro env src h
  have hstep : getAllDescendantPages env 1 src
      = if env.listOk src then
          match descendantsLoop (getAllDescendantPages env 0) (env.childrenOf src) with
          | Res.err e => Res.err e
          | Res.ok deeper =>
            Res.ok (((env.childrenOf src).map fun c => Page.mk c.id c.title (some src))
              ++ deeper)
        else Res.err (env.listErr src) := rfl
  rw [hstep, h]
  rw [descendantsLoop_const_nil (getAllDescendantPages env 0) (fun s => rfl)
    (env.childrenOf src)]
  simp

/-- Claim C6, witness: the depth-1 discovery equation applied to the
concrete chain environment. -/
theorem depth_bound_witness :
    getAllDescendantPages envChain 1 "A"
      = Res.ok ((envChain.childrenOf "A").map fun c => Page.mk c.id c.title (some "A")) :=
  depth_bound.2.1 envChain "A" (by decide)

/- ------------------------------------------------------------------ -/
/- Claim C10.                                                          -/
/- ------------------------------------------------------------------ -/

/-- Claim C10 (amended): the effective root title.  For every completed
`copyPageTree` run the created root's title equals `newTitle` whenever a
non-empty `newTitle` is given, and equals the source title concatenated with
`copySuffix` when `newTitle` is absent or empty (`newTitle` is consumed by
the JS truthiness test `newTitle || sourceTitle + copySuffix`); with the
default options a source titled `Docs` yields the root title `Docs (Copy)`,
and an overridden suffix is appended instead. -/
theorem copyPageTree_root_title (env : Env) (src tgt : String)
    (nt : Option String) (opts : CopyOpts) (res : CopyResult) (evs : List Ev)
    (h : copyPageTree env src tgt nt opts = (Res.ok res, evs)) :
    (∀ t, nt = some t → t ≠ "" → res.rootPage.title = t)
    ∧ ((nt = none ∨ nt = some "") →
        res.rootPage.title = env.titleOf src ++ opts.copySuffix)
    ∧ (copyPageTree envDocs "A" "T" none {}).1
        = Res.ok ⟨⟨"nA", "Docs (Copy)", "A", "T"⟩,
            [⟨"nA", "Docs (Copy)", "A", "T"⟩], [], 1⟩
    ∧ (copyPageTree envDocs "A" "T" none { copySuffix := " v2" }).1
        = Res.ok ⟨⟨"nA", "Docs v2", "A", "T"⟩, [⟨"nA", "Docs v2", "A", "T"⟩], [], 1⟩ := by
  obtain ⟨-, -, -, hroot, -, -⟩ := copyPageTree_ok_inversion env src tgt nt opts res evs h
  refine ⟨?_, ?_, by decide, by decide⟩
  · intro t hnt hne
    subst hnt
    rw [hroot]
    simp [truthy, hne]
  · intro hcase
    rw [hroot]
    rcases hcase with hc | hc <;> subst hc <;> simp [truthy]

/-- Claim C10, witness: the title rules applied to the completed default-run
on the `Docs` environment. -/
theorem copyPageTree_root_title_witness :
    (∀ t, (none : Option String) = some t → t ≠ "" →
      (CopyResult.mk ⟨"nA", "Docs (Copy)", "A", "T"⟩
        [⟨"nA", "Docs (Copy)", "A", "T"⟩] [] 1).rootPage.title = t)
    ∧ (((none : Option String) = none ∨ (none : Option String) = some "") →
        (CopyResult.mk ⟨"nA", "Docs (Copy)", "A", "T"⟩
          [⟨"nA", "Docs (Copy)", "A", "T"⟩] [] 1).rootPage.title
          = envDocs.titleOf "A" ++ CopyOpts.copySuffix {})
    ∧ (copyPageTree envDocs "A" "T" none {}).1
        = Res.ok ⟨⟨"nA", "Docs (Copy)", "A", "T"⟩,
            [⟨"nA", "Docs (Copy)", "A", "T"⟩], [], 1⟩
    ∧ (copyPageTree envDocs "A" "T" none { copySuffix := " v2" }).1
        = Res.ok ⟨⟨"nA", "Docs v2", "A", "T"⟩, [⟨"nA", "Docs v2", "A", "T"⟩], [], 1⟩ :=
  copyPageTree_root_title envDocs "A" "T" none {}
    (CopyResult.mk ⟨"nA", "Docs (Copy)", "A", "T"⟩
      [⟨"nA", "Docs (Copy)", "A", "T"⟩] [] 1)
    [Ev.fetch "A", Ev.create "A" "Docs (Copy)" "T", Ev.list "A"] (by decide)

/-- Claim C10, counterexample to the claim as stated: the claim promises the
root title equals `newTitle` whenever `newTitle` is given, but giving the
empty string is falsy in `newTitle || sourceTitle + copySuffix`, so the run
titles the root `Docs (Copy)` instead of the given empty title. -/
theorem copyPageTree_empty_title_counterexample :
    (copyPageTree envDocs "A" "T" (some "") {}).1
      = Res.ok ⟨⟨"nA", "Docs (Copy)", "A", "T"⟩,
          [⟨"nA", "Docs (Copy)", "A", "T"⟩], [], 1⟩
    ∧ "Docs (Copy)" ≠ "" := by
  exact ⟨by decide, by decide⟩

/- ------------------------------------------------------------------ -/
/- Claim C3.                                                           -/
/- ------------------------------------------------------------------ -/

/-- Claim C3: failure policy.  A failing root creation makes the whole
`copyPageTree` call fail with that error and no result; a non-root child
whose content fetch or creation fails is recorded in `failures` as
`{id, title, error, status}` while the loop continues with the next sibling
and never enters the failed child's subtree; on the claim's example
`A -> [B(creation fails), C]`, `B -> [D]` the completed run has
`failures = [B]`, copies exactly `A` and `C`, issues exactly one content
fetch and one create attempt for `B` (no retry), and no call mentioning
`D`. -/
theorem failure_policy :
    (∀ env src tgt nt opts, env.fetchOk src = true → env.createOk src = false →
        copyPageTree env src tgt nt opts
          = (Res.err (env.createErr src),
             [Ev.fetch src,
              Ev.create src
                (if truthy nt then nt.getD "" else env.titleOf src ++ opts.copySuffix)
                tgt]))
    ∧ (∀ env opts recFn tgt (c : SrcPage) rest,
        shouldExcludePage c.title (effectivePatterns opts.excludePatterns) = false →
        env.fetchOk c.id = false →
        copyLoop env opts recFn tgt (c :: rest)
          = St.app ⟨[], [⟨c.id, c.title, (env.fetchErr c.id).message,
                          (env.fetchErr c.id).status⟩], [Ev.fetch c.id]⟩
              (copyLoop env opts recFn tgt rest))
    ∧ (∀ env opts recFn tgt (c : SrcPage) rest,
        shouldExcludePage c.title (effectivePatterns opts.excludePatterns) = false →
        env.fetchOk c.id = true → env.createOk c.id = false →
        copyLoop env opts recFn tgt (c :: rest)
          = St.app ⟨[], [⟨c.id, c.title, (env.createErr c.id).message,
                          (env.createErr c.id).status⟩],
                    [Ev.fetch c.id, Ev.create c.id (env.titleOf c.id) tgt]⟩
              (copyLoop env opts recFn tgt rest))
    ∧ copyPageTree envCreateFailB "A" "T" none {}
        = (Res.ok ⟨⟨"nA", "a (Copy)", "A", "T"⟩,
            [⟨"nA", "a (Copy)", "A", "T"⟩, ⟨"nC", "c", "C", "nA"⟩],
            [⟨"B", "b", "create boom", some 409⟩], 2⟩,
           [Ev.fetch "A", Ev.create "A" "a (Copy)" "T", Ev.list "A",
            Ev.fetch "B", Ev.create "B" "b" "nA",
            Ev.fetch "C", Ev.create "C" "c" "nA", Ev.list "C"])
    ∧ ((copyPageTree envCreateFailB "A" "T" none {}).2.all
        fun e => !(Ev.touches e "D")) = true
    ∧ (copyPageTree envCreateFailB "A" "T" none {}).2.count (Ev.fetch "B") = 1
    ∧ (copyPageTree envCreateFailB "A" "T" none {}).2.count
        (Ev.create "B" "b" "nA") = 1 := by
  refine ⟨?_, copyLoop_fetch_fails, copyLoop_create_fails,
    by decide, by decide, by decide, by decide⟩
  intro env src tgt nt opts hf hc
  unfold copyPageTree
  rw [hf, hc]
  simp

/-- Claim C3, witness: the fatal-root-creation equation applied to the
environment whose create call for `B` fails, copying from root `B`. -/
theorem failure_policy_witness :
    copyPageTree envCreateFailB "B" "T" none {}
      = (Res.err (envCreateFailB.createErr "B"),
         [Ev.fetch "B",
          Ev.create "B"
            (if truthy none then Option.getD none ""
             else envCreateFailB.titleOf "B" ++ CopyOpts.copySuffix {}) "T"]) :=
  failure_policy.1 envCreateFailB "B" "T" none {} (by decide) (by decide)

/- ------------------------------------------------------------------ -/
/- Claim C7.                                                           -/
/- ------------------------------------------------------------------ -/

/-- Claim C7 (amended): pacing.  After each successful child creation the
engine sleeps `delayMs` iff the child is not the last sibling of its listing
and `delayMs` is positive, and only then recurses into that child's own
children; so the sleep sits directly after the child's write — before the
recursion's calls, hence between a non-last child's write and its first
descendant's write — never after the last sibling of a generation, and a
zero delay never sleeps. -/
theorem pacing_between_siblings :
    (∀ env opts recFn tgt (c : SrcPage) rest,
        shouldExcludePage c.title (effectivePatterns opts.excludePatterns) = false →
        env.fetchOk c.id = true → env.createOk c.id = true →
        0 < opts.delayMs → rest ≠ [] →
        (copyLoop env opts recFn tgt (c :: rest)).evs
          = [Ev.fetch c.id, Ev.create c.id (env.titleOf c.id) tgt, Ev.sleep]
            ++ (recFn c.id (env.newId c.id)).1.evs
            ++ (copyLoop env opts recFn tgt rest).evs)
    ∧ (∀ env opts recFn tgt (c : SrcPage),
        shouldExcludePage c.title (effectivePatterns opts.excludePatterns) = false →
        env.fetchOk c.id = true → env.createOk c.id = true →
        (copyLoop env opts recFn tgt [c]).evs
          = [Ev.fetch c.id, Ev.create c.id (env.titleOf c.id) tgt]
            ++ (recFn c.id (env.newId c.id)).1.evs)
    ∧ (∀ env opts recFn tgt (c : SrcPage) rest,
        shouldExcludePage c.title (effectivePatterns opts.excludePatterns) = false →
        env.fetchOk c.id = true → env.createOk c.id = true →
        opts.delayMs = 0 →
        (copyLoop env opts recFn tgt (c :: rest)).evs
          = [Ev.fetch c.id, Ev.create c.id (env.titleOf c.id) tgt]
            ++ (recFn c.id (env.newId c.id)).1.evs
            ++ (copyLoop env opts recFn tgt rest).evs) := by
  refine ⟨?_, ?_, ?_⟩
  · intro env opts recFn tgt c rest hx hf hc hd hrest
    rw [copyLoop_success env opts recFn tgt c rest hx hf hc]
    rw [if_pos ⟨hd, hrest⟩]
    cases hstep : (recFn c.id (env.newId c.id)).2 <;> simp
  · intro env opts recFn tgt c hx hf hc
    rw [copyLoop_success env opts recFn tgt c [] hx hf hc]
    rw [if_neg (by simp)]
    cases hstep : (recFn c.id (env.newId c.id)).2 <;> simp [copyLoop]
  · intro env opts recFn tgt c rest hx hf hc hd
    rw [copyLoop_success env opts recFn tgt c rest hx hf hc]
    rw [if_neg (by simp [hd])]
    cases hstep : (recFn c.id (env.newId c.id)).2 <;> simp

/-- Claim C7, witness: the non-last-sibling equation applied to child `B` of
the concrete tree, with the depth-0 recursion. -/
theorem pacing_between_siblings_witness :
    (copyLoop envTree {} (copyChildrenRecursive envTree {} 0) "nA"
        (SrcPage.mk "B" "b" :: [SrcPage.mk "C" "c"])).evs
      = [Ev.fetch "B", Ev.create "B" (envTree.titleOf "B") "nA", Ev.sleep]
        ++ (copyChildrenRecursive envTree {} 0 "B" (envTree.newId "B")).1.evs
        ++ (copyLoop envTree {} (copyChildrenRecursive envTree {} 0) "nA"
            [SrcPage.mk "C" "c"]).evs :=
  pacing_between_siblings.1 envTree {} (copyChildrenRecursive envTree {} 0) "nA"
    (SrcPage.mk "B" "b") [SrcPage.mk "C" "c"]
    (by decide) (by decide) (by decide) (by decide) (by decide)

/-- Claim C7, counterexample to the claim as stated: the claim places the
sleep after the recursion into the child's subtree and asserts the delay
never falls between a parent's write and its first child's write.  In the
run on `A -> [B, C]`, `B -> [D]` with the default options, `D` is the first
(and only) child of `B`, the write of `D`'s copy is the first write after
the write of `B`'s copy, and the `delayMs` sleep happens between the two —
before the recursion, not after it. -/
theorem pacing_counterexample :
    (copyPageTree envTree "A" "T" none {}).2
      = [Ev.fetch "A", Ev.create "A" "a (Copy)" "T", Ev.list "A",
         Ev.fetch "B", Ev.create "B" "b" "nA", Ev.sleep, Ev.list "B",
         Ev.fetch "D", Ev.create "D" "d" "nB", Ev.list "D",
         Ev.fetch "C", Ev.create "C" "c" "nA", Ev.list "C"]
    ∧ (envTree.childrenOf "B").map SrcPage.id = ["D"]
    ∧ (copyPageTree envTree "A" "T" none {}).2[4]? = some (Ev.create "B" "b" "nA")
    ∧ (copyPageTree envTree "A" "T" none {}).2[5]? = some Ev.sleep
    ∧ (copyPageTree envTree "A" "T" none {}).2[8]? = some (Ev.create "D" "d" "nB")
    ∧ (((copyPageTree envTree "A" "T" none {}).2.drop 5).take 3).all
        (fun e => !(Ev.isCreate e)) = true := by
  exact ⟨by decide, by decide, by decide, by decide, by decide, by decide⟩

/- ------------------------------------------------------------------ -/
/- Projections of the loop branches, for the traversal invariants.     -/
/- ------------------------------------------------------------------ -/

theorem copyLoop_success_copied (env : Env) (opts : CopyOpts)
    (recFn : String → String → St × Option ErrInfo) (tgt : String)
    (c : SrcPage) (rest : List SrcPage)
    (hx : shouldExcludePage c.title (effectivePatterns opts.excludePatterns) = false)
    (hf : env.fetchOk c.id = true) (hc : env.createOk c.id = true) :
    (copyLoop env opts recFn tgt (c :: rest)).copiedPages
      = ⟨env.newId c.id, env.titleOf c.id, c.id, tgt⟩ ::
          ((recFn c.id (env.newId c.id)).1.copiedPages
            ++ (copyLoop env opts recFn tgt rest).copiedPages) := by
  rw [copyLoop_success env opts recFn tgt c rest hx hf hc]
  simp only [St.app_copied]
  split <;> split <;> simp

theorem copyLoop_success_failures (env : Env) (opts : CopyOpts)
    (recFn : String → String → St × Option ErrInfo) (tgt : String)
    (c : SrcPage) (rest : List SrcPage)
    (hx : shouldExcludePage c.title (effectivePatterns opts.excludePatterns) = false)
    (hf : env.fetchOk c.id = true) (hc : env.createOk c.id = true) :
    (copyLoop env opts recFn tgt (c :: rest)).failures
      = (recFn c.id (env.newId c.id)).1.failures
        ++ ((match (recFn c.id (env.newId c.id)).2 with
             | some e => [⟨c.id, c.title, e.message, e.status⟩]
             | none => [])
          ++ (copyLoop env opts recFn tgt rest).failures) := by
  rw [copyLoop_success env opts recFn tgt c rest hx hf hc]
  simp only [St.app_failures]
  split <;> split <;> simp

theorem copyLoop_fetch_fails_copied (env : Env) (opts : CopyOpts)
    (recFn : String → String → St × Option ErrInfo) (tgt : String)
    (c : SrcPage) (rest : List SrcPage)
    (hx : shouldExcludePage c.title (effectivePatterns opts.excludePatterns) = false)
    (hf : env.fetchOk c.id = false) :
    (copyLoop env opts recFn tgt (c :: rest)).copiedPages
      = (copyLoop env opts recFn tgt rest).copiedPages := by
  rw [copyLoop_fetch_fails env opts recFn tgt c rest hx hf]
  simp

theorem copyLoop_fetch_fails_failures (env : Env) (opts : CopyOpts)
    (recFn : String → String → St × Option ErrInfo) (tgt : String)
    (c : SrcPage) (rest : List SrcPage)
    (hx : shouldExcludePage c.title (effectivePatterns opts.excludePatterns) = false)
    (hf : env.fetchOk c.id = false) :
    (copyLoop env opts recFn tgt (c :: rest)).failures
      = ⟨c.id, c.title, (env.fetchErr c.id).message, (env.fetchErr c.id).status⟩ ::
          (copyLoop env opts recFn tgt rest).failures := by
  rw [copyLoop_fetch_fails env opts recFn tgt c rest hx hf]
  simp

theorem copyLoop_create_fails_copied (env : Env) (opts : CopyOpts)
    (recFn : String → String → St × Option ErrInfo) (tgt : String)
    (c : SrcPage) (rest : List SrcPage)
    (hx : shouldExcludePage c.title (effectivePatterns opts.excludePatterns) = false)
    (hf : env.fetchOk c.id = true) (hc : env.createOk c.id = false) :
    (copyLoop env opts recFn tgt (c :: rest)).copiedPages
      = (copyLoop env opts recFn tgt rest).copiedPages := by
  rw [copyLoop_create_fails env opts recFn tgt c rest hx hf hc]
  simp

theorem copyLoop_create_fails_failures (env : Env) (opts : CopyOpts)
    (recFn : String → String → St × Option ErrInfo) (tgt : String)
    (c : SrcPage) (rest : List SrcPage)
    (hx : shouldExcludePage c.title (effectivePatterns opts.excludePatterns) = false)
    (hf : env.fetchOk c.id = true) (hc : env.createOk c.id = false) :
    (copyLoop env opts recFn tgt (c :: rest)).failures
      = ⟨c.id, c.title, (env.createErr c.id).message, (env.createErr c.id).status⟩ ::
          (copyLoop env opts recFn tgt rest).failures := by
  rw [copyLoop_create_fails env opts recFn tgt c rest hx hf hc]
  simp

theorem copyRec_succ_of_listOk (env : Env) (opts : CopyOpts) (gas : Nat)
    (src tgt : String) (hl : env.listOk src = true) :
    copyChildrenRecursive env opts (gas + 1) src tgt
      = (St.app ⟨[], [], [Ev.list src]⟩
          (copyLoop env opts (copyChildrenRecursive env opts gas) tgt
            (env.childrenOf src)), none) := by
  simp [copyChildrenRecursive, hl]

theorem copyRec_succ_of_listFail (env : Env) (opts : CopyOpts) (gas : Nat)
    (src tgt : String) (hl : env.listOk src = false) :
    copyChildrenRecursive env opts (gas + 1) src tgt
      = (⟨[], [], [Ev.list src]⟩, some (env.listErr src)) := by
  simp [copyChildrenRecursive, hl]

/- ------------------------------------------------------------------ -/
/- Claim C1: hierarchy preservation.                                   -/
/- ------------------------------------------------------------------ -/

theorem copyLoop_hierarchy (env : Env) (opts : CopyOpts)
    (recFn : String → String → St × Option ErrInfo) (tgt : String) (S : List String)
    (hrec : ∀ s t, ∀ p ∈ (recFn s t).1.copiedPages,
      (p.parentId = t ∧ p.srcId ∈ (env.childrenOf s).map SrcPage.id)
      ∨ ∃ q ∈ (recFn s t).1.copiedPages,
          p.parentId = q.newId ∧ p.srcId ∈ (env.childrenOf q.srcId).map SrcPage.id) :
    ∀ cs : List SrcPage, (∀ c ∈ cs, c.id ∈ S) →
      ∀ p ∈ (copyLoop env opts recFn tgt cs).copiedPages,
        (p.parentId = tgt ∧ p.srcId ∈ S)
        ∨ ∃ q ∈ (copyLoop env opts recFn tgt cs).copiedPages,
            p.parentId = q.newId ∧ p.srcId ∈ (env.childrenOf q.srcId).map SrcPage.id := by
  intro cs
  induction cs with
  | nil =>
    intro _ p hp
    simp [copyLoop, St.empty] at hp
  | cons c rest ih =>
    intro hS p hp
    have hSrest : ∀ d ∈ rest, d.id ∈ S := fun d hd => hS d (List.mem_cons_of_mem c hd)
    by_cases hx : shouldExcludePage c.title (effectivePatterns opts.excludePatterns) = true
    · rw [copyLoop_excluded env opts recFn tgt c rest hx] at hp ⊢
      exact ih hSrest p hp
    · rw [Bool.not_eq_true] at hx
      by_cases hf : env.fetchOk c.id = true
      · by_cases hc : env.createOk c.id = true
        · rw [copyLoop_success_copied env opts recFn tgt c rest hx hf hc] at hp ⊢
          rcases List.mem_cons.mp hp with hhd | htl
          · subst hhd
            exact Or.inl ⟨rfl, hS c (List.mem_cons_self c rest)⟩
          · rcases List.mem_append.mp htl with hstep | hrest
            · rcases hrec c.id (env.newId c.id) p hstep with ⟨hpar, hsrc⟩ | ⟨q, hq, hq1, hq2⟩
              · refine Or.inr ⟨⟨env.newId c.id, env.titleOf c.id, c.id, tgt⟩,
                  List.mem_cons_self _ _, hpar, hsrc⟩
              · exact Or.inr ⟨q, List.mem_cons_of_mem _ (List.mem_append_left _ hq),
                  hq1, hq2⟩
            · rcases ih hSrest p hrest with hleft | ⟨q, hq, hq1, hq2⟩
              · exact Or.inl hleft
              · exact Or.inr ⟨q, List.mem_cons_of_mem _ (List.mem_append_right _ hq),
                  hq1, hq2⟩
        · rw [Bool.not_eq_true] at hc
          rw [copyLoop_create_fails_copied env opts recFn tgt c rest hx hf hc] at hp ⊢
          exact ih hSrest p hp
      · rw [Bool.not_eq_true] at hf
        rw [copyLoop_fetch_fails_copied env opts recFn tgt c rest hx hf] at hp ⊢
        exact ih hSrest p hp

theorem copyRec_hierarchy (env : Env) (opts : CopyOpts) :
    ∀ (gas : Nat) (src tgt : String),
      ∀ p ∈ (copyChildrenRecursive env opts gas src tgt).1.copiedPages,
        (p.parentId = tgt ∧ p.srcId ∈ (env.childrenOf src).map SrcPage.id)
        ∨ ∃ q ∈ (copyChildrenRecursive env opts gas src tgt).1.copiedPages,
            p.parentId = q.newId ∧ p.srcId ∈ (env.childrenOf q.srcId).map SrcPage.id := by
  intro gas
  induction gas with
  | zero =>
    intro src tgt p hp
    simp [copyChildrenRecursive, St.empty] at hp
  | succ gas ih =>
    intro src tgt p hp
    by_cases hl : env.listOk src = true
    · rw [copyRec_succ_of_listOk env opts gas src tgt hl] at hp ⊢
      simp only [St.app_copied, List.nil_append] at hp ⊢
      exact copyLoop_hierarchy env opts (copyChildrenRecursive env opts gas) tgt
        ((env.childrenOf src).map SrcPage.id) ih (env.childrenOf src)
        (fun c hc => List.mem_map_of_mem SrcPage.id hc) p hp
    · rw [Bool.not_eq_true] at hl
      rw [copyRec_succ_of_listFail env opts gas src tgt hl] at hp
      simp at hp

/-- Claim C1: hierarchy preservation.  In every completed `copyPageTree`
run, every copied page other than the root was created by a
`createChildPage` call whose parent id is the new id of another entry of
`copiedPages` — a copy of a source page of which it is a direct child — so
children are created under the freshly created copy of their source parent,
never under the original target parent. -/
theorem hierarchy_preservation (env : Env) (src tgt : String)
    (nt : Option String) (opts : CopyOpts) (res : CopyResult) (evs : List Ev)
    (h : copyPageTree env src tgt nt opts = (Res.ok res, evs)) :
    ∀ p ∈ res.copiedPages, p ≠ res.rootPage →
      ∃ q ∈ res.copiedPages, p.parentId = q.newId
        ∧ p.srcId ∈ (env.childrenOf q.srcId).map SrcPage.id := by
  obtain ⟨-, -, -, hroot, hcopied, -⟩ :=
    copyPageTree_ok_inversion env src tgt nt opts res evs h
  intro p hp hne
  rw [hcopied] at hp
  rcases List.mem_cons.mp hp with hphead | hptail
  · exact absurd hphead hne
  · rcases copyRec_hierarchy env opts opts.maxDepth src (env.newId src) p hptail with
      ⟨hpar, hsrc⟩ | ⟨q, hq, hq1, hq2⟩
    · refine ⟨res.rootPage, by rw [hcopied]; exact List.mem_cons_self _ _, ?_, ?_⟩
      · rw [hroot]; exact hpar
      · rw [hroot]; exact hsrc
    · exact ⟨q, by rw [hcopied]; exact List.mem_cons_of_mem _ hq, hq1, hq2⟩

/-- Claim C1, witness: in the completed run on the concrete tree, the copy
of `D` (a grandchild) has a parent entry in `copiedPages`, namely the copy
of `B`. -/
theorem hierarchy_preservation_witness :
    ∃ q ∈ (CopyResult.mk ⟨"nA", "a (Copy)", "A", "T"⟩
        [⟨"nA", "a (Copy)", "A", "T"⟩, ⟨"nB", "b", "B", "nA"⟩,
         ⟨"nD", "d", "D", "nB"⟩, ⟨"nC", "c", "C", "nA"⟩] [] 4).copiedPages,
      (Copied.mk "nD" "d" "D" "nB").parentId = q.newId
      ∧ (Copied.mk "nD" "d" "D" "nB").srcId
          ∈ (envTree.childrenOf q.srcId).map SrcPage.id :=
  hierarchy_preservation envTree "A" "T" none {}
    (CopyResult.mk ⟨"nA", "a (Copy)", "A", "T"⟩
      [⟨"nA", "a (Copy)", "A", "T"⟩, ⟨"nB", "b", "B", "nA"⟩,
       ⟨"nD", "d", "D", "nB"⟩, ⟨"nC", "c", "C", "nA"⟩] [] 4)
    [Ev.fetch "A", Ev.create "A" "a (Copy)" "T", Ev.list "A",
     Ev.fetch "B", Ev.create "B" "b" "nA", Ev.sleep, Ev.list "B",
     Ev.fetch "D", Ev.create "D" "d" "nB", Ev.list "D",
     Ev.fetch "C", Ev.create "C" "c" "nA", Ev.list "C"]
    (by decide) (Copied.mk "nD" "d" "D" "nB") (by decide) (by decide)

/- ------------------------------------------------------------------ -/
/- Claim C4: disjointness of copiedPages and failures.                 -/
/- ------------------------------------------------------------------ -/

theorem copyLoop_flags (env : Env) (opts : CopyOpts)
    (recFn : String → String → St × Option ErrInfo) (tgt : String)
    (hrecC : ∀ s t, ∀ p ∈ (recFn s t).1.copiedPages,
      env.fetchOk p.srcId = true ∧ env.createOk p.srcId = true)
    (hrecF : ∀ s t, ∀ f ∈ (recFn s t).1.failures,
      env.fetchOk f.id = false ∨ env.createOk f.id = false ∨ env.listOk f.id = false)
    (hrecT : ∀ s t e, (recFn s t).2 = some e → env.listOk s = false) :
    ∀ cs : List SrcPage,
      (∀ p ∈ (copyLoop env opts recFn tgt cs).copiedPages,
        env.fetchOk p.srcId = true ∧ env.createOk p.srcId = true)
      ∧ (∀ f ∈ (copyLoop env opts recFn tgt cs).failures,
        env.fetchOk f.id = false ∨ env.createOk f.id = false
          ∨ env.listOk f.id = false) := by
  intro cs
  induction cs with
  | nil =>
    constructor
    · intro p hp; simp [copyLoop, St.empty] at hp
    · intro f hf; simp [copyLoop, St.empty] at hf
  | cons c rest ih =>
    by_cases hx : shouldExcludePage c.title (effectivePatterns opts.excludePatterns) = true
    · rw [copyLoop_excluded env opts recFn tgt c rest hx]
      exact ih
    · rw [Bool.not_eq_true] at hx
      by_cases hf : env.fetchOk c.id = true
      · by_cases hc : env.createOk c.id = true
        · constructor
          · intro p hp
            rw [copyLoop_success_copied env opts recFn tgt c rest hx hf hc] at hp
            rcases List.mem_cons.mp hp with hhd | htl
            · subst hhd; exact ⟨hf, hc⟩
            · rcases List.mem_append.mp htl with hstep | hrest
              · exact hrecC c.id (env.newId c.id) p hstep
              · exact ih.1 p hrest
          · intro f hfm
            rw [copyLoop_success_failures env opts recFn tgt c rest hx hf hc] at hfm
            rcases List.mem_append.mp hfm with hstep | htl
            · exact hrecF c.id (env.newId c.id) f hstep
            · rcases List.mem_append.mp htl with hcaught | hrest
              · rcases hstepcase : (recFn c.id (env.newId c.id)).2 with - | e
                · rw [hstepcase] at hcaught; simp at hcaught
                · rw [hstepcase] at hcaught
                  simp only [List.mem_singleton] at hcaught
                  subst hcaught
                  exact Or.inr (Or.inr (hrecT c.id (env.newId c.id) e hstepcase))
              · exact ih.2 f hrest
        · rw [Bool.not_eq_true] at hc
          constructor
          · intro p hp
            rw [copyLoop_create_fails_copied env opts recFn tgt c rest hx hf hc] at hp
            exact ih.1 p hp
          · intro f hfm
            rw [copyLoop_create_fails_failures env opts recFn tgt c rest hx hf hc] at hfm
            rcases List.mem_cons.mp hfm with hhd | hrest
            · subst hhd; exact Or.inr (Or.inl hc)
            · exact ih.2 f hrest
      · rw [Bool.not_eq_true] at hf
        constructor
        · intro p hp
          rw [copyLoop_fetch_fails_copied env opts recFn tgt c rest hx hf] at hp
          exact ih.1 p hp
        · intro f hfm
          rw [copyLoop_fetch_fails_failures env opts recFn tgt c rest hx hf] at hfm
          rcases List.mem_cons.mp hfm with hhd | hrest
          · subst hhd; exact Or.inl hf
          · exact ih.2 f hrest

theorem copyRec_flags (env : Env) (opts : CopyOpts) :
    ∀ (gas : Nat) (src tgt : String),
      (∀ p ∈ (copyChildrenRecursive env opts gas src tgt).1.copiedPages,
        env.fetchOk p.srcId = true ∧ env.createOk p.srcId = true)
      ∧ (∀ f ∈ (copyChildrenRecursive env opts gas src tgt).1.failures,
        env.fetchOk f.id = false ∨ env.createOk f.id = false
          ∨ env.listOk f.id = false)
      ∧ (∀ e, (copyChildrenRecursive env opts gas src tgt).2 = some e →
        env.listOk src = false) := by
  intro gas
  induction gas with
  | zero =>
    intro src tgt
    refine ⟨?_, ?_, ?_⟩
    · intro p hp; simp [copyChildrenRecursive, St.empty] at hp
    · intro f hf; simp [copyChildrenRecursive, St.empty] at hf
    · intro e he; simp [copyChildrenRecursive] at he
  | succ gas ih =>
    intro src tgt
    by_cases hl : env.listOk src = true
    · rw [copyRec_succ_of_listOk env opts gas src tgt hl]
      have hloop := copyLoop_flags env opts (copyChildrenRecursive env opts gas) tgt
        (fun s t => (ih s t).1) (fun s t => (ih s t).2.1)
        (fun s t e => (ih s t).2.2 e) (env.childrenOf src)
      refine ⟨?_, ?_, ?_⟩
      · intro p hp
        simp only [St.app_copied, List.nil_append] at hp
        exact hloop.1 p hp
      · intro f hfm
        simp only [St.app_failures, List.nil_append] at hfm
        exact hloop.2 f hfm
      · intro e he; simp at he
    · rw [Bool.not_eq_true] at hl
      rw [copyRec_succ_of_listFail env opts gas src tgt hl]
      refine ⟨?_, ?_, ?_⟩
      · intro p hp; simp at hp
      · intro f hfm; simp at hfm
      · intro e _; exact hl

/-- Claim C4 (amended): disjointness of `copiedPages` and `failures` by
source page id, in every completed run in which listing the children of each
copied page succeeds.  (When a copied page's own child listing fails, the
thrown error is caught one frame up and attributed to that already-copied
page, which then appears in both lists — see the counterexample.) -/
theorem copied_failures_disjoint (env : Env) (src tgt : String)
    (nt : Option String) (opts : CopyOpts) (res : CopyResult) (evs : List Ev)
    (h : copyPageTree env src tgt nt opts = (Res.ok res, evs))
    (hlist : ∀ p ∈ res.copiedPages, env.listOk p.srcId = true) :
    ∀ p ∈ res.copiedPages, ∀ f ∈ res.failures, p.srcId ≠ f.id := by
  obtain ⟨hfok, hcok, -, hroot, hcopied, hfail⟩ :=
    copyPageTree_ok_inversion env src tgt nt opts res evs h
  intro p hp f hfm heq
  have hfprops := (copyRec_flags env opts opts.maxDepth src (env.newId src)).2.1 f
    (by rw [hfail] at hfm; exact hfm)
  have hplist : env.listOk p.srcId = true := hlist p hp
  rw [hcopied] at hp
  rcases List.mem_cons.mp hp with hphead | hptail
  · have hsrc : p.srcId = src := by rw [hphead, hroot]
    rw [heq] at hsrc hplist
    rcases hfprops with hbad | hbad | hbad
    · rw [hsrc] at hbad; rw [hfok] at hbad; cases hbad
    · rw [hsrc] at hbad; rw [hcok] at hbad; cases hbad
    · rw [hplist] at hbad; cases hbad
  · have hpprops := (copyRec_flags env opts opts.maxDepth src (env.newId src)).1 p hptail
    rw [heq] at hpprops hplist
    rcases hfprops with hbad | hbad | hbad
    · rw [hpprops.1] at hbad; cases hbad
    · rw [hpprops.2] at hbad; cases hbad
    · rw [hplist] at hbad; cases hbad

/-- Claim C4, witness: the disjointness theorem applied to a completed
run in which every child listing succeeds (`B`'s creation fails), at the
copied entry for `C` and the failure entry for `B`. -/
theorem copied_failures_disjoint_witness :
    (Copied.mk "nC" "c" "C" "nA").srcId
      ≠ (Failure.mk "B" "b" "create boom" (some 409)).id :=
  copied_failures_disjoint envCreateFailB "A" "T" none {}
    (CopyResult.mk ⟨"nA", "a (Copy)", "A", "T"⟩
      [⟨"nA", "a (Copy)", "A", "T"⟩, ⟨"nC", "c", "C", "nA"⟩]
      [⟨"B", "b", "create boom", some 409⟩] 2)
    [Ev.fetch "A", Ev.create "A" "a (Copy)" "T", Ev.list "A",
     Ev.fetch "B", Ev.create "B" "b" "nA",
     Ev.fetch "C", Ev.create "C" "c" "nA", Ev.list "C"]
    (by decide) (by decide)
    (Copied.mk "nC" "c" "C" "nA") (by decide)
    (Failure.mk "B" "b" "create boom" (some 409)) (by decide)

/-- Claim C4, counterexample to the claim as stated: in a completed run in
which the child listing of the already-copied page `B` fails, source id `B`
appears both as the source of an entry of `copiedPages` and as the id of the
single entry of `failures` — the claim asserts disjointness also for such
runs. -/
theorem copied_failures_disjoint_counterexample :
    (copyPageTree envListFailB "A" "T" none {}).1
      = Res.ok ⟨⟨"nA", "a (Copy)", "A", "T"⟩,
          [⟨"nA", "a (Copy)", "A", "T"⟩, ⟨"nB", "b", "B", "nA"⟩,
           ⟨"nC", "c", "C", "nA"⟩],
          [⟨"B", "b", "list boom", some 502⟩], 3⟩
    ∧ "B" ∈ ([⟨"nA", "a (Copy)", "A", "T"⟩, ⟨"nB", "b", "B", "nA"⟩,
              ⟨"nC", "c", "C", "nA"⟩] : List Copied).map Copied.srcId
    ∧ "B" ∈ ([⟨"B", "b", "list boom", some 502⟩] : List Failure).map Failure.id := by
  exact ⟨by decide, by decide, by decide⟩

/- ------------------------------------------------------------------ -/
/- Claim C8: the dry-run path.                                         -/
/- ------------------------------------------------------------------ -/

theorem descendantsLoop_ok (g : String → List Page)
    (recFn : String → Res (List Page)) (h : ∀ s, recFn s = Res.ok (g s)) :
    ∀ cs : List SrcPage,
      descendantsLoop recFn cs = Res.ok (cs.flatMap fun c => g c.id) := by
  intro cs
  induction cs with
  | nil => rfl
  | cons c rest ih => simp [descendantsLoop, h, ih]

theorem getAllDesc_eq_ok (env : Env) (hL : ∀ s, env.listOk s = true) :
    ∀ gas src, getAllDescendantPages env gas src = Res.ok (descListT env gas src) := by
  intro gas
  induction gas with
  | zero => intro src; rfl
  | succ gas ih =>
    intro src
    simp only [getAllDescendantPages, hL src, if_true]
    rw [descendantsLoop_ok (fun s => descListT env gas s)
      (getAllDescendantPages env gas) ih (env.childrenOf src)]
    simp [descListT]

theorem getAllDesc_congr (env1 env2 : Env)
    (h1 : env1.childrenOf = env2.childrenOf) (h2 : env1.listOk = env2.listOk)
    (h3 : env1.listErr = env2.listErr) :
    ∀ gas src, getAllDescendantPages env1 gas src = getAllDescendantPages env2 gas src := by
  intro gas
  induction gas with
  | zero => intro src; rfl
  | succ gas ih =>
    intro src
    have hfun : getAllDescendantPages env1 gas = getAllDescendantPages env2 gas :=
      funext ih
    simp only [getAllDescendantPages]
    rw [h1, h2, h3, hfun]

theorem effectivePatterns_eq_self (ps : List String) (h : ∀ p ∈ ps, p ≠ "") :
    effectivePatterns ps = ps := by
  unfold effectivePatterns
  have hfil : (ps.filter fun p => !(p == "")) = ps := by
    rw [List.filter_eq_self]
    intro p hp
    simpa using h p hp
  rw [hfil]
  simp

theorem descListT_all_excluded (env : Env) (pats : List String)
    (hT : ∀ pid c, c ∈ env.childrenOf pid → c.title = env.titleOf c.id)
    (hH : ∀ s c, c ∈ env.childrenOf s →
      shouldExcludePage (env.titleOf s) pats = true →
      shouldExcludePage c.title pats = true) :
    ∀ gas s, shouldExcludePage (env.titleOf s) pats = true →
      ∀ p ∈ descListT env gas s, shouldExcludePage p.title pats = true := by
  intro gas
  induction gas with
  | zero => intro s _ p hp; simp [descListT] at hp
  | succ gas ih =>
    intro s hs p hp
    simp only [descListT] at hp
    rcases List.mem_append.mp hp with hmap | hflat
    · rcases List.mem_map.mp hmap with ⟨c, hcmem, hceq⟩
      have hct := hH s c hcmem hs
      subst hceq
      simpa using hct
    · rcases List.mem_flatMap.mp hflat with ⟨c, hcmem, hpdesc⟩
      have hct := hH s c hcmem hs
      have hcid : shouldExcludePage (env.titleOf c.id) pats = true := by
        rw [← hT s c hcmem]; exact hct
      exact ih c.id hcid p hpdesc

theorem copyRec_noThrow (env : Env) (opts : CopyOpts)
    (hL : ∀ s, env.listOk s = true) (gas : Nat) (src tgt : String) :
    (copyChildrenRecursive env opts gas src tgt).2 = none := by
  cases gas with
  | zero => rfl
  | succ gas => rw [copyRec_succ_of_listOk env opts gas src tgt (hL src)]

theorem copyRec_count_eq_descCount (env : Env) (opts : CopyOpts)
    (hL : ∀ s, env.listOk s = true) (hF : ∀ s, env.fetchOk s = true)
    (hC : ∀ s, env.createOk s = true)
    (hT : ∀ pid c, c ∈ env.childrenOf pid → c.title = env.titleOf c.id)
    (hH : ∀ s c, c ∈ env.childrenOf s →
      shouldExcludePage (env.titleOf s) (effectivePatterns opts.excludePatterns) = true →
      shouldExcludePage c.title (effectivePatterns opts.excludePatterns) = true) :
    ∀ gas src tgt,
      (copyChildrenRecursive env opts gas src tgt).1.copiedPages.length
        = ((descListT env gas src).filter fun p =>
            !shouldExcludePage p.title (effectivePatterns opts.excludePatterns)).length := by
  intro gas
  induction gas with
  | zero => intro src tgt; simp [copyChildrenRecursive, descListT, St.empty]
  | succ gas ih =>
    intro src tgt
    rw [copyRec_succ_of_listOk env opts gas src tgt (hL src)]
    simp only [St.app_copied, St.empty_copied, List.nil_append]
    have hinner : ∀ cs : List SrcPage, (∀ c ∈ cs, c ∈ env.childrenOf src) →
        (copyLoop env opts (copyChildrenRecursive env opts gas) tgt cs).copiedPages.length
          = ((cs.map fun c => Page.mk c.id c.title (some src)).filter fun p =>
              !shouldExcludePage p.title (effectivePatterns opts.excludePatterns)).length
            + ((cs.flatMap fun c => descListT env gas c.id).filter fun p =>
                !shouldExcludePage p.title (effectivePatterns opts.excludePatterns)).length := by
      intro cs
      induction cs with
      | nil => intro _; simp [copyLoop, St.empty]
      | cons c rest ihc =>
        intro hcs
        have hcrest : ∀ d ∈ rest, d ∈ env.childrenOf src :=
          fun d hd => hcs d (List.mem_cons_of_mem c hd)
        have hcmem : c ∈ env.childrenOf src := hcs c (List.mem_cons_self c rest)
        by_cases hx : shouldExcludePage c.title (effectivePatterns opts.excludePatterns) = true
        · rw [copyLoop_excluded env opts (copyChildrenRecursive env opts gas) tgt c rest hx]
          have hdesc : (descListT env gas c.id).filter
              (fun p => !shouldExcludePage p.title (effectivePatterns opts.excludePatterns)) = [] := by
            rw [List.filter_eq_nil_iff]
            intro p hp
            have hall := descListT_all_excluded env
              (effectivePatterns opts.excludePatterns) hT hH gas c.id
              (by rw [← hT src c hcmem]; exact hx) p hp
            simp [hall]
          rw [List.map_cons, List.flatMap_cons, List.filter_cons, List.filter_append, hdesc]
          have hcond : ¬((!shouldExcludePage (Page.mk c.id c.title (some src)).title
              (effectivePatterns opts.excludePatterns)) = true) := by
            simp [hx]
          rw [if_neg hcond]
          rw [ihc hcrest]
          simp
        · rw [Bool.not_eq_true] at hx
          rw [copyLoop_success_copied env opts (copyChildrenRecursive env opts gas)
            tgt c rest hx (hF c.id) (hC c.id)]
          rw [List.map_cons, List.flatMap_cons, List.filter_cons, List.filter_append]
          have hcond : (!shouldExcludePage (Page.mk c.id c.title (some src)).title
              (effectivePatterns opts.excludePatterns)) = true := by
            simp [hx]
          rw [if_pos hcond]
          rw [List.length_cons, List.length_append, ih c.id (env.newId c.id), ihc hcrest]
          simp only [List.length_cons, List.length_append]
          omega
    rw [hinner (env.childrenOf src) (fun c hc => hc)]
    simp only [descListT, List.filter_append, List.length_append]

theorem envTree_titles_consistent :
    ∀ pid c, c ∈ envTree.childrenOf pid → c.title = envTree.titleOf c.id := by
  intro pid c hc
  have hch : envTree.childrenOf pid
      = if pid = "A" then [⟨"B", "b"⟩, ⟨"C", "c"⟩]
        else if pid = "B" then [⟨"D", "d"⟩] else [] := rfl
  rw [hch] at hc
  by_cases h1 : pid = "A"
  · rw [if_pos h1] at hc
    have hcc : c = ⟨"B", "b"⟩ ∨ c = ⟨"C", "c"⟩ := by simpa using hc
    rcases hcc with h | h <;> subst h <;> decide
  · rw [if_neg h1] at hc
    by_cases h2 : pid = "B"
    · rw [if_pos h2] at hc
      have hcc : c = ⟨"D", "d"⟩ := by simpa using hc
      subst hcc; decide
    · rw [if_neg h2] at hc
      simp at hc

theorem copyPageTree_ok_of (env : Env) (opts : CopyOpts) (src tgt : String)
    (nt : Option String) (hf : env.fetchOk src = true) (hc : env.createOk src = true)
    (hnothrow : (copyChildrenRecursive env opts opts.maxDepth src (env.newId src)).2 = none) :
    copyPageTree env src tgt nt opts
      = (Res.ok ⟨⟨env.newId src,
            (if truthy nt then nt.getD "" else env.titleOf src ++ opts.copySuffix),
            src, tgt⟩,
          ⟨env.newId src,
            (if truthy nt then nt.getD "" else env.titleOf src ++ opts.copySuffix),
            src, tgt⟩ ::
            (copyChildrenRecursive env opts opts.maxDepth src (env.newId src)).1.copiedPages,
          (copyChildrenRecursive env opts opts.maxDepth src (env.newId src)).1.failures,
          (⟨env.newId src,
            (if truthy nt then nt.getD "" else env.titleOf src ++ opts.copySuffix),
            src, tgt⟩ ::
            (copyChildrenRecursive env opts opts.maxDepth src (env.newId src)).1.copiedPages).length⟩,
         Ev.fetch src ::
           Ev.create src
             (if truthy nt then nt.getD "" else env.titleOf src ++ opts.copySuffix) tgt ::
           (copyChildrenRecursive env opts opts.maxDepth src (env.newId src)).1.evs) := by
  unfold copyPageTree
  rw [hf, hc]
  simp only [Bool.not_true, Bool.false_eq_true, if_false]
  split
  · rename_i e he
    rw [hnothrow] at he
    cases he
  · rfl

/-- Claim C8 (amended): dry-run behaviour.  The dry-run branch never
consults the repository's create operation, so its outcome is unchanged by
any reinterpretation of create — in particular a stub that throws on every
create cannot make it throw, and under succeeding reads it completes with a
report.  Its filtered descendant count equals the number of depth-bounded
descendants whose own title matches no pattern; that equals the number of
non-root pages a live run copies whenever every child of an excluded page is
itself excluded (for consistent titles and non-empty patterns) — without
that closure the dry-run count can exceed the live count, because the
dry-run filter keeps the non-excluded descendants of an excluded page while
the live traversal never visits them (see the counterexample). -/
theorem dry_run_equivalence :
    (∀ env src nt d ps suf f,
        dryRunCopyTree { env with createOk := f } src nt d ps suf
          = dryRunCopyTree env src nt d ps suf)
    ∧ (∀ env src nt d ps suf, env.fetchOk src = true → (∀ s, env.listOk s = true) →
        dryRunCopyTree env src nt d ps suf
          = Res.ok ((if truthy nt then nt.getD "" else env.titleOf src ++ suf),
              ((descListT env d src).filter fun p =>
                !shouldExcludePage p.title ps).length))
    ∧ (∀ env src tgt nt opts res evs,
        (∀ s, env.listOk s = true) → (∀ s, env.fetchOk s = true) →
        (∀ s, env.createOk s = true) →
        (∀ pid c, c ∈ env.childrenOf pid → c.title = env.titleOf c.id) →
        (∀ s c, c ∈ env.childrenOf s →
          shouldExcludePage (env.titleOf s) opts.excludePatterns = true →
          shouldExcludePage c.title opts.excludePatterns = true) →
        (∀ p ∈ opts.excludePatterns, p ≠ "") →
        copyPageTree env src tgt nt opts = (Res.ok res, evs) →
        ∃ t n, dryRunCopyTree env src nt opts.maxDepth opts.excludePatterns opts.copySuffix
            = Res.ok (t, n)
          ∧ res.copiedPages.length = n + 1) := by
  have hdry : ∀ (env : Env) src nt d ps suf, env.fetchOk src = true →
      (∀ s, env.listOk s = true) →
      dryRunCopyTree env src nt d ps suf
        = Res.ok ((if truthy nt then nt.getD "" else env.titleOf src ++ suf),
            ((descListT env d src).filter fun p =>
              !shouldExcludePage p.title ps).length) := by
    intro env src nt d ps suf hf hL
    unfold dryRunCopyTree
    rw [hf]
    simp only [Bool.not_true, Bool.false_eq_true, if_false]
    rw [getAllDesc_eq_ok env hL d src]
  refine ⟨?_, hdry, ?_⟩
  · intro env src nt d ps suf f
    unfold dryRunCopyTree
    rw [getAllDesc_congr { env with createOk := f } env rfl rfl rfl d src]
  · intro env src tgt nt opts res evs hL hF hC hT hH hne h
    have heff : effectivePatterns opts.excludePatterns = opts.excludePatterns :=
      effectivePatterns_eq_self opts.excludePatterns hne
    obtain ⟨hf, hc, -, -, hcopied, -⟩ :=
      copyPageTree_ok_inversion env src tgt nt opts res evs h
    have hH2 : ∀ s c, c ∈ env.childrenOf s →
        shouldExcludePage (env.titleOf s) (effectivePatterns opts.excludePatterns) = true →
        shouldExcludePage c.title (effectivePatterns opts.excludePatterns) = true := by
      rw [heff]; exact hH
    have hcount := copyRec_count_eq_descCount env opts hL hF hC hT hH2
      opts.maxDepth src (env.newId src)
    refine ⟨(if truthy nt then nt.getD "" else env.titleOf src ++ opts.copySuffix),
      ((descListT env opts.maxDepth src).filter fun p =>
        !shouldExcludePage p.title opts.excludePatterns).length,
      hdry env src nt opts.maxDepth opts.excludePatterns opts.copySuffix (hF src) hL, ?_⟩
    rw [hcopied, List.length_cons, hcount, heff]

/-- Claim C8, witness: the dry-run report and the count equivalence on the
plain concrete tree (no exclusions), where the live run copies three
non-root pages and the dry run reports three. -/
theorem dry_run_equivalence_witness :
    ∃ t n, dryRunCopyTree envTree "A" none (CopyOpts.maxDepth {})
        (CopyOpts.excludePatterns {}) (CopyOpts.copySuffix {}) = Res.ok (t, n)
      ∧ (CopyResult.mk ⟨"nA", "a (Copy)", "A", "T"⟩
          [⟨"nA", "a (Copy)", "A", "T"⟩, ⟨"nB", "b", "B", "nA"⟩,
           ⟨"nD", "d", "D", "nB"⟩, ⟨"nC", "c", "C", "nA"⟩] [] 4).copiedPages.length
          = n + 1 :=
  dry_run_equivalence.2.2 envTree "A" "T" none {}
    (CopyResult.mk ⟨"nA", "a (Copy)", "A", "T"⟩
      [⟨"nA", "a (Copy)", "A", "T"⟩, ⟨"nB", "b", "B", "nA"⟩,
       ⟨"nD", "d", "D", "nB"⟩, ⟨"nC", "c", "C", "nA"⟩] [] 4)
    [Ev.fetch "A", Ev.create "A" "a (Copy)" "T", Ev.list "A",
     Ev.fetch "B", Ev.create "B" "b" "nA", Ev.sleep, Ev.list "B",
     Ev.fetch "D", Ev.create "D" "d" "nB", Ev.list "D",
     Ev.fetch "C", Ev.create "C" "c" "nA", Ev.list "C"]
    (fun s => rfl) (fun s => rfl) (fun s => rfl)
    envTree_titles_consistent
    (fun s c hc habs => by simp [shouldExcludePage] at habs)
    (by simp) (by decide)

/-- Claim C8, counterexample to the claim as stated: on `A -> [B]`,
`B -> [D]` with `B` excluded by pattern `secret*` and `D` not, the dry-run
branch reports one page to create — `D` survives its per-page filter even
though its parent is excluded — while the live run with the same inputs
copies zero non-root pages, since it never visits the subtree of the
excluded `B`.  The reported filtered count and the live copy count
differ. -/
theorem dry_run_count_counterexample :
    dryRunCopyTree envSecret "A" none 10 ["secret*"] " (Copy)"
      = Res.ok ("a (Copy)", 1)
    ∧ (copyPageTree envSecret "A" "T" none { excludePatterns := ["secret*"] }).1
        = Res.ok ⟨⟨"nA", "a (Copy)", "A", "T"⟩,
            [⟨"nA", "a (Copy)", "A", "T"⟩], [], 1⟩
    ∧ ([(⟨"nA", "a (Copy)", "A", "T"⟩ : Copied)].length - 1 = 0)
    ∧ (1 : Nat) ≠ 0 := by
  exact ⟨by decide, by decide, by decide, by decide⟩

end ConfluenceCli
